import Mathlib

/-!
# Verification of the clinvar-api-upload variant-processing core

Shallow embedding of the variant normalization, deduplication, splitting,
diffing and annotation-merging logic of the repository (files
`check_input.py`, `check_for_updates.py`, `annotate_data.py`,
`helper_functions.py`), together with proofs settling the frozen claims.

Modelling conventions:
* Python `str` values are Lean `String`s (in this toolchain a `String` is a
  structure holding a `List Char`, which matches Python's sequence-of-code-points
  view for the ASCII data handled here).
* Python exceptions (IndexError on out-of-range indexing, ValueError on tuple
  unpacking, KeyError on missing dictionary keys) are modelled by `Option`
  results / an explicit error constructor: `none` / `.err` means the Python
  code raises.
* The `Start` / `Stop` fields are strings holding decimal integers in the
  source (they are passed through `int(...)` and `str(...)` whenever
  arithmetic is done); they are modelled by their integer values, with
  `toString` at the places where the source uses the string form.
-/

set_option autoImplicit false

namespace ClinVar

/-- Python-style character indexing `s[i]`: a negative index counts from the
end; an index out of range is an `IndexError`, modelled as `none`. -/
def pyCharAt (s : String) (i : Int) : Option Char :=
  let j : Int := if i < 0 then i + s.length else i
  if j < 0 then none else s.data.get? j.toNat

/-- Python slice `s[:k]` (with an `Int` bound, as in the source where the
bound can be a negative cursor). Slicing never raises. -/
def pySliceTo (s : String) (k : Int) : String :=
  let j : Int := if k < 0 then k + s.length else k
  ⟨s.data.take j.toNat⟩

/-- Python slice `s[k:]`. -/
def pySliceFrom (s : String) (k : Int) : String :=
  let j : Int := if k < 0 then k + s.length else k
  ⟨s.data.drop j.toNat⟩

/-- Python `c in s` membership test for a single character. -/
def pyContains (s : String) (c : Char) : Bool :=
  s.data.any (fun x => x = c)

/-- Python `s.startswith(p)`. -/
def pyStartsWith (s p : String) : Bool :=
  p.data.isPrefixOf s.data

/-- `str.split(sep)` on a list of characters, for a one-character separator:
splitting never drops empty fields and always returns at least one field. -/
def splitChar (sep : Char) : List Char → List (List Char)
  | [] => [[]]
  | c :: cs =>
    match splitChar sep cs with
    | [] => [[]]
    | g :: gs => if c = sep then [] :: g :: gs else (c :: g) :: gs

/-- Python `s.split(sep)` for a one-character separator. -/
def pySplit (s : String) (sep : Char) : List String :=
  (splitChar sep s.data).map (fun l => ⟨l⟩)

/-- Python whitespace split `s.split()` (no argument): runs of whitespace
separate tokens, no empty tokens are produced. `acc` holds the characters of
the token currently being read, in reverse. -/
def wsToks (acc : List Char) : List Char → List (List Char)
  | [] => if acc = [] then [] else [acc.reverse]
  | c :: cs =>
    if c.isWhitespace then
      if acc = [] then wsToks [] cs else acc.reverse :: wsToks [] cs
    else wsToks (c :: acc) cs

/-- Python `s.split()`: whitespace-delimited tokens. -/
def splitWs (l : List Char) : List (List Char) :=
  wsToks [] l

/-- Python `<` on strings: lexicographic comparison of the code points. -/
def charListLt : List Char → List Char → Bool
  | _, [] => false
  | [], _ :: _ => true
  | a :: as, b :: bs => if a < b then true else if b < a then false else charListLt as bs

/-- Python `s < t` on strings. -/
def pyStrLt (s t : String) : Bool :=
  charListLt s.data t.data

/-- Python `s <= t` on strings: strictly below, or equal. -/
def pyStrLe (s t : String) : Bool :=
  charListLt s.data t.data || s.data == t.data

/-- A variant record: one row of the tab-delimited export/reference files.
Field names follow the column names used by the source
(`#Chromosome`, `Start`, `Stop`, `Ref/Alt`, `hgvs c.`, `Gene Names`,
`Classification`, `Notes`, `Last Edited`, `SCV`). -/
structure VRecord where
  chrom : String
  start : Int
  stop : Int
  refAlt : String
  hgvsC : String
  geneNames : String
  classification : String
  notes : String
  lastEdited : String
  scv : String
deriving DecidableEq

/-! ## Change-Set Differ (`check_for_updates.py`, `compare_variants`) -/

/-- The positional identity used by the differ:
`"\t".join([#Chromosome, Start, Stop, Ref/Alt])`. -/
def coordsKey (v : VRecord) : String :=
  v.chrom ++ "\t" ++ toString v.start ++ "\t" ++ toString v.stop ++ "\t" ++ v.refAlt

/-- The differ's match test between a new record and a reference record:
`(new["hgvs c."] == old["hgvs c."] != "") or (new_coords == old_coords)`. -/
def matchesOld (n o : VRecord) : Bool :=
  (n.hgvsC == o.hgvsC && o.hgvsC != "") || coordsKey n == coordsKey o

/-- Outcome of the inner reference scan of `compare_variants` for one new
record: the loop breaks at the first matching reference row. -/
inductive MatchOutcome where
  | upToDate : MatchOutcome
  | skipNoScv : MatchOutcome
  | update (scv : String) : MatchOutcome
  | noMatch : MatchOutcome
deriving DecidableEq

/-- The inner loop of `compare_variants`: scan the reference rows in order,
stop at the first match, then branch on `Last Edited` (a Python string
comparison) and on `SCV`. -/
def scanOld (n : VRecord) : List VRecord → MatchOutcome
  | [] => .noMatch
  | o :: rest =>
    if matchesOld n o then
      if pyStrLe n.lastEdited o.lastEdited then .upToDate
      else if o.scv = "" then .skipNoScv
      else .update o.scv
    else scanOld n rest

/-- `compare_variants(new_variants, old_variants, date_of_upload)` from
`check_for_updates.py`, with the two file reads replaced by the record lists
they produce. Returns `(variants_upload, variants_update)`. A new record whose
scan ends in `skipNoScv` sets neither `to_update` nor `up_to_date`, so the
final `if not to_update and not up_to_date` appends it to `variants_upload`. -/
def compare_variants : List VRecord → List VRecord → String → List VRecord × List VRecord
  | [], _, _ => ([], [])
  | n :: rest, olds, d =>
    let r := compare_variants rest olds d
    match scanOld n olds with
    | .noMatch => (n :: r.1, r.2)
    | .upToDate => r
    | .skipNoScv => (n :: r.1, r.2)
    | .update scv => (r.1, { n with scv := scv, lastEdited := d } :: r.2)

/-- The first reference record matching a new record, if any. -/
def firstMatch (n : VRecord) (olds : List VRecord) : Option VRecord :=
  olds.find? (fun o => matchesOld n o)

/-! ## Allele Normalizer (`check_input.py`, `correct_format` / `check_variant`) -/

/-- Result of `correct_format`: a normal return (the `"/".join`-ed allele pair
and the updated `start`/`stop`), a Python exception (`IndexError` from
out-of-range indexing), or exhaustion of the model's recursion budget
(`fuelOut` is proved unreachable for the calls the source makes). -/
inductive CFOut where
  | ok (refAlt : String) (start stop : Int) : CFOut
  | err : CFOut
  | fuelOut : CFOut
deriving DecidableEq

/-- The `while` loop of `correct_format`: advance `cursor` by `step` while it
indexes into both alleles and the indexed characters agree; report the final
cursor and whether a mismatch (`subset = True`) stopped the loop. Inside the
loop the guard keeps both indexings in range, so comparing the `Option`s is
the Python character comparison. The fuel argument only models loop
divergence and is proved sufficient for the steps `1` and `-1` used. -/
def cfLoop (ref alt : String) (step : Int) : Nat → Int → Option (Int × Bool)
  | 0, _ => none
  | fuel + 1, cursor =>
    if cursor.natAbs < ref.length ∧ cursor.natAbs < alt.length then
      if pyCharAt ref cursor ≠ pyCharAt alt cursor then some (cursor, true)
      else cfLoop ref alt step fuel (cursor + step)
    else some (cursor, false)

/-- The body of `correct_format(ref, alt, start, stop, cursor, step)` from
`check_input.py`, with the single recursive call (made with `cursor=0`,
`step=1`) abstracted as `recurse`. The branch structure mirrors the source's
`if`/`elif` chain on `(subset, cursor)`; every Python indexing that can raise
`IndexError` is modelled by `pyCharAt` with `.err` on `none`. -/
def cfBody (recurse : String → String → Int → Int → CFOut)
    (ref alt : String) (start stop cursor0 step : Int) : CFOut :=
  match cfLoop ref alt step (ref.length + alt.length + 1) cursor0 with
    | none => .fuelOut
    | some (cursor, subset) =>
      if subset ∧ cursor < -1 then
        -- suffix in common: trim it, update stop, possibly recurse on a prefix
        let ref1 := pySliceTo ref (cursor + 1)
        let alt1 := pySliceTo alt (cursor + 1)
        let stop1 := stop + cursor + 1
        match pyCharAt ref1 0, pyCharAt alt1 0 with
        | some r0, some a0 =>
          if r0 = a0 then recurse ref1 alt1 start stop1
          else .ok (ref1 ++ "/" ++ alt1) start stop1
        | _, _ => .err
      else if subset ∧ cursor > 0 then
        -- prefix in common
        .ok (pySliceFrom ref cursor ++ "/" ++ pySliceFrom alt cursor) (start + cursor) stop
      else if cursor.natAbs > ref.length then
        -- insertion: whole reference is subset of alternate allele
        if cursor > 0 then .ok ("-" ++ "/" ++ pySliceFrom alt cursor) (start + cursor) stop
        else .ok ("-" ++ "/" ++ pySliceTo alt (cursor + 1)) start (stop + cursor + 1)
      else if cursor.natAbs > alt.length then
        -- deletion: whole alternate is subset of reference allele
        if cursor > 0 then .ok (pySliceFrom ref cursor ++ "/" ++ "-") (start + cursor) stop
        else .ok (pySliceTo ref (cursor + 1) ++ "/" ++ "-") start (stop + cursor + 1)
      else if cursor.natAbs = ref.length then
        -- `if not ref[cursor] == alt[cursor] and cursor < 0`: both indexings
        -- are evaluated before the conjunction, so either can raise
        match pyCharAt ref cursor, pyCharAt alt cursor with
        | some rc, some ac =>
          if rc ≠ ac ∧ cursor < 0 then
            -- `ref = ref[0]`; here cursor < 0 and |cursor| = len ref, so
            -- ref[0] = ref[cursor] = rc
            .ok (String.mk [rc] ++ "/" ++ (if cursor = -1 then alt else pySliceTo alt (cursor + 1)))
              start (stop + cursor + 1)
          else if cursor < 0 then
            .ok ("-" ++ "/" ++ pySliceTo alt cursor) start
              (if cursor = -1 then stop else stop + cursor)
          else
            .ok ("-" ++ "/" ++ pySliceFrom alt cursor) (start + cursor) stop
        | _, _ => .err
      else if cursor.natAbs = alt.length then
        match pyCharAt ref cursor, pyCharAt alt cursor with
        | some rc, some ac =>
          if rc ≠ ac then
            if cursor > 0 then
              match pyCharAt alt (-1) with
              | some alast => .ok (pySliceFrom ref cursor ++ "/" ++ String.mk [alast]) (start + cursor) stop
              | none => .err
            else
              match pyCharAt alt 0 with
              | some a0 => .ok (pySliceTo ref (cursor + 1) ++ "/" ++ String.mk [a0]) start (stop + cursor)
              | none => .err
          else
            if cursor > 0 then .ok (pySliceFrom ref cursor ++ "/" ++ "-") (start + cursor) stop
            else .ok (pySliceTo ref cursor ++ "/" ++ "-") start (stop + cursor)
        | _, _ => .err
      else .ok (ref ++ "/" ++ alt) start stop

/-- `correct_format` with an explicit recursion budget: each budget level is
one instantiation of `cfBody`, the recursive call spending one level. -/
def correctFormatAux : Nat → String → String → Int → Int → Int → Int → CFOut
  | 0, _, _, _, _, _, _ => .fuelOut
  | depth + 1, ref, alt, start, stop, cursor0, step =>
    cfBody (fun r a s1 t1 => correctFormatAux depth r a s1 t1 0 1)
      ref alt start stop cursor0 step

/-- `correct_format` as called by the program: recursion budget 2, which is
proved sufficient (the recursive call happens at most once). -/
def correct_format (ref alt : String) (start stop cursor step : Int) : CFOut :=
  correctFormatAux 2 ref alt start stop cursor step

/-- The allele-rewriting part of `check_variant` (`check_input.py`,
lines 149-171): split `Ref/Alt`, and unless one allele is already the empty
marker `-` or both are single-base, normalize via `correct_format` —
suffix-first (`cursor=-1, step=-1`) when the last bases agree, else
prefix (`cursor=0, step=1`) when the first bases agree — writing the result
back into `Ref/Alt`, `Start`, `Stop` and clearing `hgvs c.`.
`none` models an uncaught Python exception. -/
def normalizeVariant (v : VRecord) : Option VRecord :=
  match pySplit v.refAlt '/' with
  | [ref, alt] =>
    if ¬ (alt ≠ "-" ∧ ref = "-") ∧ ¬ (ref ≠ "-" ∧ alt = "-") ∧
        ¬ (ref.length = 1 ∧ alt.length = 1) then
      match pyCharAt ref (-1), pyCharAt alt (-1) with
      | some rl, some al =>
        if rl = al then
          match correct_format ref alt v.start v.stop (-1) (-1) with
          | .ok ra s t => some { v with refAlt := ra, start := s, stop := t, hgvsC := "" }
          | _ => none
        else
          match pyCharAt ref 0, pyCharAt alt 0 with
          | some r0, some a0 =>
            if r0 = a0 then
              match correct_format ref alt v.start v.stop 0 1 with
              | .ok ra s t => some { v with refAlt := ra, start := s, stop := t, hgvsC := "" }
              | _ => none
            else some v
          | _, _ => none
      | _, _ => none
    else some v
  | _ => none

/-! ## Record Deduplicator & Splitter (`check_input.py`) -/

/-- Python list slice `l[::2]`: every other element, starting at index 0. -/
def everyOther {α : Type} : List α → List α
  | [] => []
  | [x] => [x]
  | x :: _ :: rest => x :: everyOther rest

/-- `"/".join(parts)`. -/
def joinSlash : List String → String
  | [] => ""
  | [s] => s
  | s :: rest => s ++ "/" ++ joinSlash rest

/-- `separate_variants(two_variants)` from `check_input.py`: split a row with
three `/`-joined alleles into two bi-allelic rows, `v1` with the allele slice
`[:2]` and `v2` with the slice `[::2]`; a comma-separated `hgvs c.` pair is
unpacked onto the two rows (a two-element unpack — any other comma count
raises `ValueError`, modelled as `none`), otherwise `v2` gets an empty
`hgvs c.`. All other fields are deep-copied unchanged. -/
def separate_variants (v : VRecord) : Option (VRecord × VRecord) :=
  let parts := pySplit v.refAlt '/'
  let ra1 := joinSlash (parts.take 2)
  let ra2 := joinSlash (everyOther parts)
  if pyContains v.hgvsC ',' then
    match pySplit v.hgvsC ',' with
    | [h1, h2] => some ({ v with refAlt := ra1, hgvsC := h1 },
                        { v with refAlt := ra2, hgvsC := h2 })
    | _ => none
  else
    some ({ v with refAlt := ra1 }, { v with refAlt := ra2, hgvsC := "" })

/-- The composite key of `remove_duplicate_rows`:
`(row['hgvs c.'], '<->'.join([row['#Chromosome'], row['Start'], row['Stop'], row['Ref/Alt']]))`. -/
def dedupKey (r : VRecord) : String × String :=
  (r.hgvsC,
   r.chrom ++ "<->" ++ toString r.start ++ "<->" ++ toString r.stop ++ "<->" ++ r.refAlt)

/-- The dedup scan: the source counts occurrences of each key in a
`defaultdict` and keeps a row exactly when its key's count is 1, i.e. when
the key has not been seen on an earlier row; `seen` is the set of keys of
already-kept rows. -/
def removeDupAux : List (String × String) → List VRecord → List VRecord
  | _, [] => []
  | seen, r :: rest =>
    if dedupKey r ∈ seen then removeDupAux seen rest
    else r :: removeDupAux (dedupKey r :: seen) rest

/-- `remove_duplicate_rows` from `check_input.py` (the row-filtering part;
file reading and the removed-count report are external I/O). -/
def remove_duplicate_rows (rows : List VRecord) : List VRecord :=
  removeDupAux [] rows

/-! ## Identity Resolver (`annotate_data.py`, `get_id`) -/

/-- `"_".join(parts)`. -/
def joinUnderscore : List String → String
  | [] => ""
  | [s] => s
  | s :: rest => s ++ "_" ++ joinUnderscore rest

/-- `get_id(variant)` from `annotate_data.py`: for a record without
`hgvs c.`, build `Chr.<chrom>_<start+1>_<stop>_<ref>_<alt>`, appending
`_Insertion` when `"-" in ref` and otherwise `_Deletion` when `"-" in alt`.
The initial two-element unpack of `Ref/Alt.split("/")` raises on any other
shape (`none`). -/
def get_id (v : VRecord) : Option String :=
  match pySplit v.refAlt '/' with
  | [ref, alt] =>
    let base := joinUnderscore ["Chr." ++ v.chrom, toString (v.start + 1),
                                toString v.stop, ref, alt]
    if pyContains ref '-' then some (base ++ "_Insertion")
    else if pyContains alt '-' then some (base ++ "_Deletion")
    else some base
  | _ => none

/-! ## Annotation Merger (`annotate_data.py`, `helper_functions.py`) -/

/-- The value stored per identity in the SCV mapping:
`{"SCV": ..., "Last Edited": ...}`. -/
structure AnnEntry where
  scv : String
  lastEdited : String
deriving DecidableEq

/-- The identity → `AnnEntry` mapping (a Python `dict`, insertion-ordered). -/
abbrev AnnMap : Type := List (String × AnnEntry)

/-- Python `d[k] = v` on an insertion-ordered dict: overwrite the existing
entry in place, or append a new one. -/
def mapSet (m : AnnMap) (k : String) (v : AnnEntry) : AnnMap :=
  if (List.lookup k m).isSome then
    m.map (fun p => if p.1 = k then (k, v) else p)
  else m ++ [(k, v)]

/-- One entry of a submission summary report: the `clinvarLocalKey`
identifier, the `clinvarAccession` when the upload succeeded (its absence is
the `KeyError` that sends the source into its `except` branch), and the
`userMessage` of the first error (read only in the `except` branch). -/
structure Submission where
  localKey : String
  accession : Option String
  userMessage : String
deriving DecidableEq

/-- The documented error-message opening that marks a recoverable
"already submitted" failure. -/
def novelMsgStart : String :=
  "This record is submitted as novel but"

/-- `get_new_annotation(summary_report, annotation_dict, date_string)` from
`annotate_data.py` (named `get_new_ann` here), with the report JSON replaced
by its list of submission entries. Successful entries map
`clinvarLocalKey.split("|")[0]` to the returned accession; failed entries
whose first error's `userMessage` starts with the documented token are
treated the same, taking the accession from whitespace token 23 of the
message (an out-of-range token is an `IndexError`, `none`); any other failed
entry is skipped. -/
def get_new_ann : List Submission → AnnMap → String → Option AnnMap
  | [], m, _ => some m
  | e :: rest, m, d =>
    let id := List.headD (pySplit e.localKey '|') ""
    match e.accession with
    | some scv => get_new_ann rest (mapSet m id { scv := scv, lastEdited := d }) d
    | none =>
      if pyStartsWith e.userMessage novelMsgStart then
        match (splitWs e.userMessage.data).get? 23 with
        | some tok => get_new_ann rest (mapSet m id { scv := ⟨tok⟩, lastEdited := d }) d
        | none => none
      else get_new_ann rest m d

/-- The `BASE_PAIRS` complement table of `helper_functions.py`; any other
character is a `KeyError`. -/
def basePair : Char → Option Char
  | 'A' => some 'T'
  | 'C' => some 'G'
  | 'G' => some 'C'
  | 'T' => some 'A'
  | _ => none

/-- `get_reverse_strand(sequence)`: complement every base, then reverse. -/
def get_reverse_strand (s : String) : Option String :=
  match s.data.mapM basePair with
  | some comp => some ⟨comp.reverse⟩
  | none => none

/-- `re.sub("[\(].*?[\)]", repl, s)` on character lists: replace every
non-greedy parenthesized span (from a `(` to the first following `)`) by
`repl`. -/
def subParenFuel (repl : List Char) : Nat → List Char → List Char
  | 0, l => l
  | _ + 1, [] => []
  | fuel + 1, c :: rest =>
    if c = '(' ∧ rest.contains ')' = true then
      repl ++ subParenFuel repl fuel (rest.drop ((rest.takeWhile (fun x => x ≠ ')')).length + 1))
    else c :: subParenFuel repl fuel rest

/-- Entry point of `subParenFuel`: every step consumes at least one input
character, so `l.length` fuel always suffices. -/
def subParen (repl l : List Char) : List Char :=
  subParenFuel repl l.length l

/-- `fix_hgvs(hgvs, alt)` from `helper_functions.py`: when a parenthesis is
present, replace the parenthesized run-length token by the allele sequence —
reverse-complemented in the first (or only) comma segment, verbatim in the
second of two segments. Without a parenthesis the function returns the join
of an empty list, i.e. the empty string. `none` models the `KeyError` raised
by `get_reverse_strand` on a non-ACGT allele. -/
def fix_hgvs (hgvs alt : String) : Option String :=
  if pyContains hgvs '(' then
    match pySplit hgvs ',' with
    | [v0, v1] =>
      match get_reverse_strand alt with
      | some rc => some (String.mk (subParen rc.data v0.data) ++ ","
                          ++ String.mk (subParen alt.data v1.data))
      | none => none
    | vs =>
      match get_reverse_strand alt with
      | some rc => some (String.mk (subParen rc.data (List.headD vs "").data))
      | none => none
  else some ""

/-- `re.search(r"\(\d+\)", s)`: is there a parenthesized non-empty digit run? -/
def hasParenDigits : List Char → Bool
  | [] => false
  | c :: rest =>
    if c = '(' then
      match rest.takeWhile Char.isDigit with
      | [] => hasParenDigits rest
      | _ :: _ =>
        match rest.dropWhile Char.isDigit with
        | ')' :: _ => true
        | _ => hasParenDigits rest
    else hasParenDigits rest

/-- The per-row body of the annotation loop of `annotate_file`
(`annotate_data.py`, lines 201-217): for a row with an `hgvs c.`, take its
first comma segment `hf`; when `hf` contains a parenthesized digit run,
compute the repaired form `hfNew` via `fix_hgvs` (reading the alternate
allele with `row["Ref/Alt"].split("/")[1]`); if `hf` **or** `hfNew` is a key
of the mapping, the source then reads `annotation[hgvs_field]` with the raw
`hf` — a `KeyError` (`none`) when only the repaired form is a key. Rows
without `hgvs c.` are looked up under `get_id`. -/
def annotateRow (ann : AnnMap) (row : VRecord) : Option VRecord :=
  if row.hgvsC ≠ "" then
    let hf := List.headD (pySplit row.hgvsC ',') ""
    let hfNewOpt : Option String :=
      if hasParenDigits hf.data then
        match (pySplit row.refAlt '/').get? 1 with
        | some alt1 => fix_hgvs hf alt1
        | none => none
      else some hf
    match hfNewOpt with
    | none => none
    | some hfNew =>
      if (List.lookup hf ann).isSome ∨ (List.lookup hfNew ann).isSome then
        match List.lookup hf ann with
        | some a => some { row with scv := a.scv, lastEdited := a.lastEdited, hgvsC := hf }
        | none => none
      else some row
  else
    match get_id row with
    | none => none
    | some vc =>
      match List.lookup vc ann with
      | some a => some { row with scv := a.scv, lastEdited := a.lastEdited }
      | none => some row

/-- The annotation pass of `annotate_file` over the input rows. -/
def annotate_rows (ann : AnnMap) (rows : List VRecord) : Option (List VRecord) :=
  rows.mapM (annotateRow ann)

/-! ## Concrete records used by the counterexamples and witnesses -/

/-- A plain bi-allelic record used as the base of the concrete instances. -/
def sampleRec : VRecord :=
  { chrom := "1", start := 100, stop := 101, refAlt := "A/G",
    hgvsC := "NM_1:c.1A>G", geneNames := "g", classification := "cl",
    notes := "", lastEdited := "2024-02-02", scv := "" }

/-- A reference-file twin of `sampleRec` with an older edit date and no
accession. -/
def oldNoScv : VRecord :=
  { sampleRec with lastEdited := "2024-01-01", scv := "" }

/-- A reference-file twin of `sampleRec` with an older edit date and an
accession. -/
def oldWithScv : VRecord :=
  { sampleRec with lastEdited := "2024-01-01", scv := "SCV000009" }

/-- The C1 input: `ref="ATG"`, `alt="AT"`, `start=100`, `stop=102`. -/
def c1Rec : VRecord :=
  { sampleRec with refAlt := "ATG/AT", start := 100, stop := 102 }

/-- The C4 input whose first normalization succeeds and whose second raises. -/
def c4Rec : VRecord :=
  { sampleRec with refAlt := "TG/TCAG", start := 100, stop := 103 }

/-- Two rows with the same first `hgvs c.` comma segment but different full
`hgvs c.` strings (same positional data). -/
def dupRow1 : VRecord :=
  { sampleRec with hgvsC := "NM_1:c.1A>G,NM_2:c.5T>C" }

/-- See `dupRow1`. -/
def dupRow2 : VRecord :=
  { sampleRec with hgvsC := "NM_1:c.1A>G,NM_3:c.9del" }

/-- A record without `hgvs c.` whose alternate allele is the empty marker. -/
def idRec : VRecord :=
  { sampleRec with hgvsC := "", refAlt := "A/-", start := 10, stop := 11 }

/-- A recoverable-failure message with the accession at whitespace token 23. -/
def recovMsg : String :=
  "This record is submitted as novel but it should be submitted as an update including the SCV accession because your organization previously submitted SCV000111 for the same variant."

/-- A tri-allelic row carrying two comma-separated `hgvs c.` values. -/
def triRec : VRecord :=
  { sampleRec with refAlt := "A/C/G", hgvsC := "NM_1:c.5A>C,NM_1:c.5A>G" }

/-- A row whose `hgvs c.` first segment carries a parenthesized repeat token. -/
def parenRow : VRecord :=
  { sampleRec with hgvsC := "NM_1:c.100_101ins(5)", refAlt := "-/AAAAA" }

/-- An annotation mapping keyed by the repaired form of `parenRow`'s
identity (as `annotate_from_ref` seeds it), not by the raw form. -/
def parenAnn : AnnMap :=
  [("NM_1:c.100_101insTTTTT", { scv := "SCV000777", lastEdited := "2023-01-01" })]

/-! ## Helper lemmas -/

theorem charListLt_irrefl : ∀ l : List Char, charListLt l l = false := by
  intro l
  induction l with
  | nil => rfl
  | cons c cs ih => simp [charListLt, ih]

theorem charListLt_asymm :
    ∀ a b : List Char, charListLt a b = true → charListLt b a = false := by
  intro a
  induction a with
  | nil =>
    intro b hab
    cases b with
    | nil => simp [charListLt] at hab
    | cons y ys => simp [charListLt]
  | cons x xs ih =>
    intro b hab
    cases b with
    | nil => simp [charListLt] at hab
    | cons y ys =>
      by_cases hxy : x < y
      · have hyx : ¬ y < x := lt_asymm hxy
        simp [charListLt, hxy, hyx]
      · by_cases hyx : y < x
        · simp [charListLt, hxy, hyx] at hab
        · have : charListLt xs ys = true := by simpa [charListLt, hxy, hyx] using hab
          simp [charListLt, hxy, hyx, ih ys this]

theorem charListLt_of_ne :
    ∀ a b : List Char, charListLt a b = false → a ≠ b → charListLt b a = true := by
  intro a
  induction a with
  | nil =>
    intro b hab hne
    cases b with
    | nil => exact absurd rfl hne
    | cons y ys => simp [charListLt] at hab
  | cons x xs ih =>
    intro b hab hne
    cases b with
    | nil => simp [charListLt]
    | cons y ys =>
      by_cases hxy : x < y
      · simp [charListLt, hxy] at hab
      · by_cases hyx : y < x
        · simp [charListLt, hyx]
        · have hx : x = y := le_antisymm (not_lt.mp hyx) (not_lt.mp hxy)
          subst hx
          have htail : charListLt xs ys = false := by
            simpa [charListLt, hyx] using hab
          have hnetail : xs ≠ ys := by
            intro h; exact hne (by rw [h])
          simp [charListLt, hyx, ih ys htail hnetail]

/-- If Python says `t < s` (strictly), then it does not say `s <= t`. -/
theorem pyStrLe_eq_false_of_lt (s t : String) (h : pyStrLt t s = true) :
    pyStrLe s t = false := by
  unfold pyStrLt at h
  unfold pyStrLe
  have h1 : charListLt s.data t.data = false := charListLt_asymm _ _ h
  have h2 : (s.data == t.data) = false := by
    rcases Bool.eq_false_or_eq_true (s.data == t.data) with ht | hf
    · exfalso
      have : s.data = t.data := by exact beq_iff_eq.mp ht
      rw [this] at h
      rw [charListLt_irrefl] at h
      exact Bool.false_ne_true h
    · exact hf
  simp [h1, h2]

theorem scanOld_update (n : VRecord) :
    ∀ (olds : List VRecord) (o : VRecord),
      firstMatch n olds = some o →
      pyStrLe n.lastEdited o.lastEdited = false →
      o.scv ≠ "" →
      scanOld n olds = .update o.scv := by
  intro olds
  induction olds with
  | nil => intro o hfm _ _; simp [firstMatch, List.find?] at hfm
  | cons h rest ih =>
    intro o hfm hle hscv
    by_cases hm : matchesOld n h = true
    · have ho : o = h := by
        simp [firstMatch, List.find?, hm] at hfm
        exact hfm.symm
      subst ho
      simp [scanOld, hm, hle, hscv]
    · have hm' : matchesOld n h = false := by
        simpa using hm
      have hfm' : firstMatch n rest = some o := by
        simpa [firstMatch, List.find?, hm'] using hfm
      simp [scanOld, hm', ih o hfm' hle hscv]

theorem scanOld_skip (n : VRecord) :
    ∀ (olds : List VRecord) (o : VRecord),
      firstMatch n olds = some o →
      pyStrLe n.lastEdited o.lastEdited = false →
      o.scv = "" →
      scanOld n olds = .skipNoScv := by
  intro olds
  induction olds with
  | nil => intro o hfm _ _; simp [firstMatch, List.find?] at hfm
  | cons h rest ih =>
    intro o hfm hle hscv
    by_cases hm : matchesOld n h = true
    · have ho : o = h := by
        simp [firstMatch, List.find?, hm] at hfm
        exact hfm.symm
      subst ho
      simp [scanOld, hm, hle, hscv]
    · have hm' : matchesOld n h = false := by
        simpa using hm
      have hfm' : firstMatch n rest = some o := by
        simpa [firstMatch, List.find?, hm'] using hfm
      simp [scanOld, hm', ih o hfm' hle hscv]

/-! ## C3: update carries the reference accession -/

/-- C3: for every new record whose first matching reference record (equal
non-empty HGVS-c or equal positional tuple) has a strictly older
`Last Edited` and a non-empty accession, `compare_variants` appends the new
record to the update list, with the reference accession copied into its SCV
field and its `Last Edited` set to the upload date. -/
theorem compare_variants_updates_with_accession
    (news olds : List VRecord) (d : String) (n o : VRecord)
    (hn : n ∈ news)
    (hfm : firstMatch n olds = some o)
    (hlt : pyStrLt o.lastEdited n.lastEdited = true)
    (hscv : o.scv ≠ "") :
    { n with scv := o.scv, lastEdited := d } ∈ (compare_variants news olds d).2 := by
  have hle : pyStrLe n.lastEdited o.lastEdited = false :=
    pyStrLe_eq_false_of_lt n.lastEdited o.lastEdited hlt
  have hscan : scanOld n olds = .update o.scv := scanOld_update n olds o hfm hle hscv
  induction hn with
  | head rest =>
    simp [compare_variants, hscan]
  | tail m hmem ih =>
    rename_i rest
    show _ ∈ (compare_variants (m :: rest) olds d).2
    cases hs : scanOld m olds with
    | upToDate => simpa [compare_variants, hs] using ih
    | skipNoScv => simpa [compare_variants, hs] using ih
    | noMatch => simpa [compare_variants, hs] using ih
    | update scv => simp [compare_variants, hs]; right; exact ih

/-- C3 witness: a concrete instance of the update case. -/
theorem compare_variants_updates_with_accession_witness :
    { sampleRec with scv := oldWithScv.scv, lastEdited := "2024-03-03" }
      ∈ (compare_variants [sampleRec] [oldWithScv] "2024-03-03").2 :=
  compare_variants_updates_with_accession [sampleRec] [oldWithScv] "2024-03-03"
    sampleRec oldWithScv (by decide) (by decide) (by decide) (by decide)

/-! ## C2: stale match without accession -/

/-- C2 counterexample: a new record whose first (and only) matching reference
record has a strictly older `Last Edited` and an empty SCV is **not**
skipped: `compare_variants` places it in the novel upload list. -/
theorem stale_match_no_scv_goes_to_novel :
    firstMatch sampleRec [oldNoScv] = some oldNoScv ∧
    pyStrLt oldNoScv.lastEdited sampleRec.lastEdited = true ∧
    oldNoScv.scv = "" ∧
    compare_variants [sampleRec] [oldNoScv] "2024-03-03" = ([sampleRec], []) := by
  refine ⟨by decide, by decide, by decide, by decide⟩

/-- C2 (amended): for every new record whose first matching reference record
has a strictly older `Last Edited` and an empty accession, `compare_variants`
places the new record in the novel upload list (not the update list). -/
theorem stale_match_no_scv_in_novel_list
    (news olds : List VRecord) (d : String) (n o : VRecord)
    (hn : n ∈ news)
    (hfm : firstMatch n olds = some o)
    (hlt : pyStrLt o.lastEdited n.lastEdited = true)
    (hscv : o.scv = "") :
    n ∈ (compare_variants news olds d).1 := by
  have hle : pyStrLe n.lastEdited o.lastEdited = false :=
    pyStrLe_eq_false_of_lt n.lastEdited o.lastEdited hlt
  have hscan : scanOld n olds = .skipNoScv := scanOld_skip n olds o hfm hle hscv
  induction hn with
  | head rest =>
    simp [compare_variants, hscan]
  | tail m hmem ih =>
    rename_i rest
    show _ ∈ (compare_variants (m :: rest) olds d).1
    cases hs : scanOld m olds with
    | upToDate => simpa [compare_variants, hs] using ih
    | update scv => simpa [compare_variants, hs] using ih
    | noMatch => simp [compare_variants, hs]; right; exact ih
    | skipNoScv => simp [compare_variants, hs]; right; exact ih

/-- C2 witness: a concrete instance of the amended statement. -/
theorem stale_match_no_scv_in_novel_list_witness :
    sampleRec ∈ (compare_variants [sampleRec] [oldNoScv] "2024-03-03").1 :=
  stale_match_no_scv_in_novel_list [sampleRec] [oldNoScv] "2024-03-03"
    sampleRec oldNoScv (by decide) (by decide) (by decide) (by decide)

/-! ## C5: deduplication -/

theorem removeDupAux_filter (k : String × String) :
    ∀ (rows : List VRecord) (seen : List (String × String)),
      (removeDupAux seen rows).filter (fun r => dedupKey r == k) =
        if k ∈ seen then [] else (rows.find? (fun r => dedupKey r == k)).toList := by
  intro rows
  induction rows with
  | nil =>
    intro seen
    by_cases hk : k ∈ seen <;> simp [removeDupAux, List.find?, hk]
  | cons r rest ih =>
    intro seen
    by_cases hrk : dedupKey r = k
    · have hb : (dedupKey r == k) = true := by simpa using hrk
      by_cases hr : dedupKey r ∈ seen
      · have hk : k ∈ seen := hrk ▸ hr
        simp [removeDupAux, hr, ih, hk]
      · have hk : k ∉ seen := fun h => hr (by rw [hrk]; exact h)
        have hmem : k ∈ dedupKey r :: seen := by
          rw [← hrk]; exact List.mem_cons_self _ _
        simp [removeDupAux, hr, List.filter, hb, ih, hmem, hk, List.find?]
    · have hb : (dedupKey r == k) = false := by simpa using hrk
      have hmem : (k ∈ dedupKey r :: seen) ↔ k ∈ seen := by
        constructor
        · intro h
          rcases List.mem_cons.mp h with h | h
          · exact absurd h.symm hrk
          · exact h
        · exact fun h => List.mem_cons_of_mem _ h
      by_cases hr : dedupKey r ∈ seen
      · by_cases hk : k ∈ seen
        · simp [removeDupAux, hr, ih, hk]
        · simp [removeDupAux, hr, ih, hk, List.find?, hb]
      · by_cases hk : k ∈ seen
        · simp [removeDupAux, hr, List.filter, hb, ih, hmem, hk]
        · simp [removeDupAux, hr, List.filter, hb, ih, hmem, hk, List.find?]

theorem removeDupAux_sublist :
    ∀ (rows : List VRecord) (seen : List (String × String)),
      (removeDupAux seen rows).Sublist rows := by
  intro rows
  induction rows with
  | nil => intro seen; simp [removeDupAux]
  | cons r rest ih =>
    intro seen
    by_cases hr : dedupKey r ∈ seen
    · simp only [removeDupAux, hr, if_pos]
      exact List.Sublist.cons r (ih seen)
    · simp only [removeDupAux, hr, if_neg, not_false_iff]
      exact List.Sublist.cons₂ r (ih (dedupKey r :: seen))

/-- C5 counterexample: two distinct rows that share a (non-empty) first
HGVS-c comma segment — hence the same Identity Key in the claim's sense — but
differ in the full `hgvs c.` string: `remove_duplicate_rows` keeps both, so
it does not keep "exactly one" per claimed Identity Key. -/
theorem dedup_not_by_identity_key :
    dupRow1.hgvsC ≠ "" ∧ dupRow2.hgvsC ≠ "" ∧
    List.headD (pySplit dupRow1.hgvsC ',') "" = List.headD (pySplit dupRow2.hgvsC ',') "" ∧
    dupRow1 ≠ dupRow2 ∧
    remove_duplicate_rows [dupRow1, dupRow2] = [dupRow1, dupRow2] := by
  refine ⟨by decide, by decide, by decide, by decide, by decide⟩

/-- C5 (amended): for every pair of input rows with identical composite
deduplication key — the pair of the full `hgvs c.` string and the
`<->`-join of chromosome, start, stop and ref/alt — the deduplicator keeps
exactly one row per key, namely the first occurrence: filtering the output
on any key yields exactly the first input row with that key, and the output
is a subsequence of the input. -/
theorem remove_duplicate_rows_keeps_first (rows : List VRecord) (k : String × String) :
    (remove_duplicate_rows rows).filter (fun r => dedupKey r == k) =
      (rows.find? (fun r => dedupKey r == k)).toList ∧
    (remove_duplicate_rows rows).Sublist rows := by
  constructor
  · have h := removeDupAux_filter k rows []
    simpa [remove_duplicate_rows] using h
  · exact removeDupAux_sublist rows []

/-! ## C6: positional identity -/

theorem str_append_empty (s : String) : s ++ "" = s := by
  cases s with
  | mk d =>
    show String.mk (d ++ []) = String.mk d
    rw [List.append_nil]

/-- C6: for every variant record with empty HGVS-c whose `Ref/Alt` splits
into two well-formed alleles (each either the empty marker `-` or free of
`-`), `get_id` returns exactly
`Chr.<chromosome>_<start+1>_<stop>_<ref>_<alt>`, with `_Insertion` appended
when the reference allele is the empty marker and `_Deletion` appended when
the alternate allele is the empty marker. -/
theorem get_id_builds_positional_identity (v : VRecord) (ref alt : String)
    (_hh : v.hgvsC = "")
    (hsplit : pySplit v.refAlt '/' = [ref, alt])
    (hr : ref = "-" ∨ pyContains ref '-' = false)
    (ha : alt = "-" ∨ pyContains alt '-' = false) :
    get_id v = some
      (joinUnderscore ["Chr." ++ v.chrom, toString (v.start + 1), toString v.stop, ref, alt]
        ++ (if ref = "-" then "_Insertion" else if alt = "-" then "_Deletion" else "")) := by
  unfold get_id
  rw [hsplit]
  rcases hr with hr | hr
  · subst hr
    have hc : pyContains "-" '-' = true := by decide
    simp [hc]
  · have hrne : ref ≠ "-" := by
      intro h
      rw [h] at hr
      simp [pyContains] at hr
    rcases ha with ha | ha
    · subst ha
      have hc : pyContains "-" '-' = true := by decide
      simp [hr, hc, hrne]
    · have hane : alt ≠ "-" := by
        intro h
        rw [h] at ha
        simp [pyContains] at ha
      simp [hr, ha, hrne, hane, str_append_empty]

/-- C6 witness: a deletion record. -/
theorem get_id_builds_positional_identity_witness :
    get_id idRec = some "Chr.1_11_11_A_-_Deletion" := by
  have h := get_id_builds_positional_identity idRec "A" "-"
    (by decide) (by decide) (Or.inr (by decide)) (Or.inl rfl)
  rw [h]
  decide

/-! ## C7: recoverable submission failures -/

/-- C7: a failed submission entry whose user message starts with the
documented token is folded into the mapping exactly as a successful entry
would be, taking the accession from whitespace token 23 of the message;
a failure with any other message leaves the mapping unchanged. -/
theorem recoverable_report_entry (m : AnnMap) (d key : String) :
    (∀ (msg scv : String),
        pyStartsWith msg novelMsgStart = true →
        (splitWs msg.data).get? 23 = some scv.data →
        get_new_ann [{ localKey := key, accession := none, userMessage := msg }] m d
            = some (mapSet m (List.headD (pySplit key '|') "") { scv := scv, lastEdited := d }) ∧
        get_new_ann [{ localKey := key, accession := none, userMessage := msg }] m d
            = get_new_ann [{ localKey := key, accession := some scv, userMessage := msg }] m d) ∧
    (∀ msg : String,
        pyStartsWith msg novelMsgStart = false →
        get_new_ann [{ localKey := key, accession := none, userMessage := msg }] m d
            = some m) := by
  constructor
  · intro msg scv hpre htok
    have htok' : (splitWs msg.data)[23]? = some scv.data := by
      rw [← List.get?_eq_getElem?]
      exact htok
    constructor
    · simp [get_new_ann, hpre, htok']
    · simp [get_new_ann, hpre, htok']
  · intro msg hpre
    simp [get_new_ann, hpre]

/-- C7 witness: a concrete recoverable failure. -/
theorem recoverable_report_entry_witness :
    get_new_ann [{ localKey := "LK1|extra", accession := none, userMessage := recovMsg }]
        [] "2024-05-05"
      = some (mapSet [] (List.headD (pySplit "LK1|extra" '|') "")
          { scv := "SCV000111", lastEdited := "2024-05-05" }) :=
  ((recoverable_report_entry [] "2024-05-05" "LK1|extra").1 recovMsg "SCV000111"
    (by decide) (by decide)).1

/-! ## C8: tri-allelic splitting -/

theorem splitChar_of_no_sep (sep : Char) :
    ∀ l : List Char, l.any (fun x => x = sep) = false → splitChar sep l = [l] := by
  intro l
  induction l with
  | nil => intro _; rfl
  | cons c cs ih =>
    intro h
    simp only [List.any_cons, Bool.or_eq_false_iff, decide_eq_false_iff_not] at h
    simp [splitChar, ih h.2, h.1]

theorem pyContains_of_split_pair (s : String) (h1 h2 : String)
    (h : pySplit s ',' = [h1, h2]) : pyContains s ',' = true := by
  rcases Bool.eq_false_or_eq_true (pyContains s ',') with ht | hf
  · exact ht
  · exfalso
    have := splitChar_of_no_sep ',' s.data (by simpa [pyContains] using hf)
    rw [pySplit, this] at h
    simp at h

/-- C8: a tri-allelic row splits into exactly two bi-allelic records, the
first with alleles `[0,1]` and the second with alleles `[0,2]`; two
comma-separated HGVS-c values are distributed one per record, otherwise only
the first record keeps the HGVS-c and the second's becomes empty; all other
fields are copied unchanged into both records. -/
theorem separate_variants_splits (v : VRecord) (a b c : String)
    (hsplit : pySplit v.refAlt '/' = [a, b, c]) :
    (∀ h1 h2 : String, pySplit v.hgvsC ',' = [h1, h2] →
        separate_variants v = some ({ v with refAlt := a ++ "/" ++ b, hgvsC := h1 },
                                    { v with refAlt := a ++ "/" ++ c, hgvsC := h2 })) ∧
    (pyContains v.hgvsC ',' = false →
        separate_variants v = some ({ v with refAlt := a ++ "/" ++ b },
                                    { v with refAlt := a ++ "/" ++ c, hgvsC := "" })) := by
  constructor
  · intro h1 h2 hh
    have hc : pyContains v.hgvsC ',' = true := pyContains_of_split_pair _ _ _ hh
    simp [separate_variants, hsplit, hc, hh, everyOther, joinSlash]
  · intro hc
    simp [separate_variants, hsplit, hc, everyOther, joinSlash]

/-- C8 witness: `A/C/G` with two HGVS-c values. -/
theorem separate_variants_splits_witness :
    separate_variants triRec
      = some ({ triRec with refAlt := "A" ++ "/" ++ "C", hgvsC := "NM_1:c.5A>C" },
              { triRec with refAlt := "A" ++ "/" ++ "G", hgvsC := "NM_1:c.5A>G" }) :=
  (separate_variants_splits triRec "A" "C" "G" (by decide)).1
    "NM_1:c.5A>C" "NM_1:c.5A>G" (by decide)

/-! ## C9: repaired-HGVS lookup in the annotation pass -/

/-- C9: a row whose raw first HGVS-c segment carries a parenthesized repeat
token, and whose repaired form (but not the raw form) is a key of the
mapping, makes the annotation pass raise a `KeyError`: the membership guard
admits the row via the repaired key, but the value is then read at the raw
key. -/
theorem paren_row_raises_keyerror :
    List.lookup (List.headD (pySplit parenRow.hgvsC ',') "") parenAnn = none ∧
    fix_hgvs (List.headD (pySplit parenRow.hgvsC ',') "") "AAAAA"
      = some "NM_1:c.100_101insTTTTT" ∧
    (List.lookup "NM_1:c.100_101insTTTTT" parenAnn).isSome = true ∧
    annotateRow parenAnn parenRow = none ∧
    annotate_rows parenAnn [parenRow] = none := by
  refine ⟨by decide, by decide, by decide, by decide, by decide⟩

/-! ## C1: the documented deletion input raises instead -/

/-- C1: on `(ref="ATG", alt="AT", start=100, stop=102)` — which passes the
normalizer's guard — the prefix call of `correct_format` made by
`check_variant` raises an `IndexError` (`alt[2]` is read in the
`abs(cursor) == len(alt)` branch) instead of returning the documented
deletion. -/
theorem c1_input_raises_index_error :
    correct_format "ATG" "AT" 100 102 0 1 = CFOut.err ∧
    normalizeVariant c1Rec = none := by
  refine ⟨by decide, by decide⟩

/-! ## C4: renormalizing an output can raise -/

/-- C4: normalization is not idempotent as a program: `TG/TCAG` normalizes to
`T/TCA` (stop decremented), and renormalizing that output raises an
`IndexError` (`ref[1]` is read in the `abs(cursor) == len(ref)` branch of the
prefix call) instead of being a no-op. -/
theorem c4_renormalization_raises :
    normalizeVariant c4Rec
      = some { c4Rec with refAlt := "T/TCA", stop := 102, hgvsC := "" } ∧
    normalizeVariant { c4Rec with refAlt := "T/TCA", stop := 102, hgvsC := "" } = none := by
  refine ⟨by decide, by decide⟩

/-! ## C10: termination and recursion depth of `correct_format` -/

theorem cfLoop_pos_isSome (ref alt : String) :
    ∀ (n : Nat) (c : Int), 0 ≤ c →
      min ref.length alt.length ≤ c.natAbs + n →
      (cfLoop ref alt 1 (n + 1) c).isSome = true := by
  intro n
  induction n with
  | zero =>
    intro c _hc hmin
    simp only [cfLoop]
    split
    · next hguard =>
      exfalso
      have h1 : c.natAbs < min ref.length alt.length := Nat.lt_min.mpr hguard
      omega
    · simp
  | succ n ih =>
    intro c hc hmin
    simp only [cfLoop]
    split
    · split
      · simp
      · exact ih (c + 1) (by omega) (by omega)
    · simp

theorem cfLoop_neg_isSome (ref alt : String) :
    ∀ (n : Nat) (c : Int), c ≤ 0 →
      min ref.length alt.length ≤ c.natAbs + n →
      (cfLoop ref alt (-1) (n + 1) c).isSome = true := by
  intro n
  induction n with
  | zero =>
    intro c _hc hmin
    simp only [cfLoop]
    split
    · next hguard =>
      exfalso
      have h1 : c.natAbs < min ref.length alt.length := Nat.lt_min.mpr hguard
      omega
    · simp
  | succ n ih =>
    intro c hc hmin
    simp only [cfLoop]
    split
    · split
      · simp
      · exact ih (c + -1) (by omega) (by omega)
    · simp

theorem cfLoop_pos_nonneg (ref alt : String) :
    ∀ (n : Nat) (c c2 : Int) (b : Bool), 0 ≤ c →
      cfLoop ref alt 1 n c = some (c2, b) → 0 ≤ c2 := by
  intro n
  induction n with
  | zero => intro c c2 b _hc h; simp [cfLoop] at h
  | succ n ih =>
    intro c c2 b hc h
    simp only [cfLoop] at h
    split at h
    · split at h
      · simp only [Option.some.injEq, Prod.mk.injEq] at h
        omega
      · exact ih (c + 1) c2 b (by omega) h
    · simp only [Option.some.injEq, Prod.mk.injEq] at h
      omega

/-- The prefix-direction body (`cursor=0, step=1`) returns without invoking
the recursive continuation: its recursion branch requires `cursor < -1`, but
the cursor stays nonnegative. -/
theorem cfBody_pos_ne_fuelOut (k : String → String → Int → Int → CFOut)
    (ref alt : String) (s t : Int) :
    cfBody k ref alt s t 0 1 ≠ CFOut.fuelOut := by
  have hs := cfLoop_pos_isSome ref alt (ref.length + alt.length) 0 (le_refl 0) (by omega)
  obtain ⟨⟨c2, b⟩, hloop⟩ := Option.isSome_iff_exists.mp hs
  have hc2 : 0 ≤ c2 :=
    cfLoop_pos_nonneg ref alt (ref.length + alt.length + 1) 0 c2 b (le_refl 0) hloop
  have hcond : ¬ (b = true ∧ c2 < -1) := by
    rintro ⟨_, hlt⟩
    omega
  simp only [cfBody, hloop]
  rw [if_neg hcond]
  repeat' split
  all_goals simp

/-- The suffix-direction body never exhausts the budget when the recursive
continuation does not. -/
theorem cfBody_neg_ne_fuelOut (k : String → String → Int → Int → CFOut)
    (hk : ∀ r a s1 t1, k r a s1 t1 ≠ CFOut.fuelOut)
    (ref alt : String) (s t : Int) :
    cfBody k ref alt s t (-1) (-1) ≠ CFOut.fuelOut := by
  have hs := cfLoop_neg_isSome ref alt (ref.length + alt.length) (-1) (by omega) (by omega)
  obtain ⟨⟨c2, b⟩, hloop⟩ := Option.isSome_iff_exists.mp hs
  simp only [cfBody, hloop]
  repeat' split
  all_goals first
    | exact hk _ _ _ _
    | simp

/-- C10: `correct_format` terminates on every pair of non-empty alleles with
integer-valued coordinates, for both calls the program makes: the budget-2
model never reports budget exhaustion, i.e. the `while` loop ends and at
most one recursive call (which receives `cursor=0, step=1` and cannot
recurse again) is made. -/
theorem correct_format_depth_bounded (ref alt : String) (s t : Int)
    (_hr : ref ≠ "") (_ha : alt ≠ "") :
    correct_format ref alt s t (-1) (-1) ≠ CFOut.fuelOut ∧
    correct_format ref alt s t 0 1 ≠ CFOut.fuelOut := by
  constructor
  · show cfBody (fun r a s1 t1 => correctFormatAux 1 r a s1 t1 0 1)
        ref alt s t (-1) (-1) ≠ CFOut.fuelOut
    refine cfBody_neg_ne_fuelOut _ ?_ ref alt s t
    intro r a s1 t1
    show cfBody (fun r2 a2 s2 t2 => correctFormatAux 0 r2 a2 s2 t2 0 1)
        r a s1 t1 0 1 ≠ CFOut.fuelOut
    exact cfBody_pos_ne_fuelOut _ r a s1 t1
  · show cfBody (fun r a s1 t1 => correctFormatAux 1 r a s1 t1 0 1)
        ref alt s t 0 1 ≠ CFOut.fuelOut
    exact cfBody_pos_ne_fuelOut _ ref alt s t

/-- C10 witness. -/
theorem correct_format_depth_bounded_witness :
    correct_format "A" "B" 0 0 (-1) (-1) ≠ CFOut.fuelOut ∧
    correct_format "A" "B" 0 0 0 1 ≠ CFOut.fuelOut :=
  correct_format_depth_bounded "A" "B" 0 0 (by decide) (by decide)

end ClinVar
